import Mathlib

/-!
Verification of the YOLO-v2 output-tensor decoder
(`src/onnx/src/yolo_processor.cpp`, namespace `yolo`).

Machine floats are embedded as exact real numbers (`ℝ`, with `Real.exp`);
`std::vector<float>` becomes `List ℝ`, and the unchecked `operator[]`
accesses of the decode loop are modelled as fallible reads (`List.get?`),
so the decoder returns `Option (List YoloBox)`: `none` models an
out-of-range access, `some` a completed scan.
-/

namespace yolo

def ROW_COUNT : ℕ := 13

def COL_COUNT : ℕ := 13

def CHANNEL_COUNT : ℕ := 125

def BOXES_PER_CELL : ℕ := 5

def BOX_INFO_FEATURE_COUNT : ℕ := 5

def CLASS_COUNT : ℕ := 20

noncomputable def CELL_WIDTH : ℝ := 32

noncomputable def CELL_HEIGHT : ℝ := 32

def labels : List String :=
  ["aeroplane", "bicycle", "bird", "boat", "bottle",
   "bus", "car", "cat", "chair", "cow",
   "diningtable", "dog", "horse", "motorbike", "person",
   "pottedplant", "sheep", "sofa", "train", "tvmonitor"]

/-- Modelled from the spec: the `YoloBox` record itself is declared in
`onnx/yolo_processor.h`, which is not under `src/`; field names follow the
spec's Detection record (§3) and the brace-initializer order used in
`GetRecognizedObjects` (label, x, y, width, height, score). -/
structure YoloBox where
  label : String
  x : ℝ
  y : ℝ
  width : ℝ
  height : ℝ
  score : ℝ

/-- The static `anchors` array local to `GetRecognizedObjects`:
five (width-scale, height-scale) pairs, flattened. -/
noncomputable def anchors : List ℝ :=
  [1.08, 1.19, 3.42, 4.41, 6.63, 11.38, 9.42, 5.11, 16.62, 10.52]

def channelStride : ℤ := (ROW_COUNT : ℤ) * (COL_COUNT : ℤ)

/-- `YoloProcessor::GetOffset`: flat index of cell `(x, y)` of a channel.
C++ `int` arithmetic embedded as `ℤ` (no overflow in the claim range). -/
def GetOffset (x y channel : ℤ) : ℤ :=
  channel * channelStride + y * (COL_COUNT : ℤ) + x

/-- `YoloProcessor::Sigmoid`: `k = exp(value); k / (1.0f + k)`. -/
noncomputable def Sigmoid (value : ℝ) : ℝ :=
  Real.exp value / (1 + Real.exp value)

/-- Modelled from the spec: §4.2's prescribed sigmoid form
`1 / (1 + exp(-v))`, the numerically safe variant the implementation is
told to use; kept separate from `Sigmoid`, which embeds the code. -/
noncomputable def sigmoidSpec (v : ℝ) : ℝ :=
  1 / (1 + Real.exp (-v))

/-- `*std::max_element` on a `vector<float>`: the greatest element.
The empty case (undefined in C++) is given the junk value 0. -/
noncomputable def maxElem : List ℝ → ℝ
  | [] => 0
  | x :: xs => xs.foldl max x

/-- `YoloProcessor::Softmax`: subtract the maximum, exponentiate,
normalize by the total. -/
noncomputable def Softmax (values : List ℝ) : List ℝ :=
  let max_val := maxElem values
  let exps := values.map fun x => Real.exp (x - max_val)
  let exptot := exps.sum
  exps.map fun x => x / exptot

/-- Index returned by `std::max_element`: the FIRST position holding the
greatest value (a later element replaces the current best only when
strictly greater). The empty case (undefined in C++) returns 0. -/
noncomputable def maxIdx : List ℝ → ℕ
  | [] => 0
  | x :: xs => if maxElem (x :: xs) ≤ x then 0 else maxIdx xs + 1

/-- One `modelOutputs[GetOffset(x, y, channel)]` access of the decode
loop, as a fallible read (C++ `operator[]` is unchecked; an out-of-range
access has no defined value). -/
def readM (modelOutputs : List ℝ) (x y channel : ℕ) : Option ℝ :=
  modelOutputs.get? (GetOffset (x : ℤ) (y : ℤ) (channel : ℤ)).toNat

/-- The `for (int i = 0; i < CLASS_COUNT; i++) classes[i] = ...` fill
loop: reads in index order, failing at the first out-of-range access. -/
def mapOpt (f : ℕ → Option ℝ) : List ℕ → Option (List ℝ)
  | [] => some []
  | i :: is => do
    let v ← f i
    let rest ← mapOpt f is
    pure (v :: rest)

/-- The body of the innermost (`b`) loop of
`YoloProcessor::GetRecognizedObjects`, for one cell `(cx, cy)` and anchor
`b`.  Outer `none` models an out-of-range tensor access; `some none` a
filtered-out anchor; `some (some box)` an emitted box. -/
noncomputable def stepM (modelOutputs : List ℝ) (threshold : ℝ)
    (cy cx b : ℕ) : Option (Option YoloBox) := do
  let channel := b * (CLASS_COUNT + BOX_INFO_FEATURE_COUNT)
  let tx ← readM modelOutputs cx cy channel
  let ty ← readM modelOutputs cx cy (channel + 1)
  let tw ← readM modelOutputs cx cy (channel + 2)
  let th ← readM modelOutputs cx cy (channel + 3)
  let tc ← readM modelOutputs cx cy (channel + 4)
  let x := ((cx : ℝ) + Sigmoid tx) * CELL_WIDTH
  let y := ((cy : ℝ) + Sigmoid ty) * CELL_HEIGHT
  let width := Real.exp tw * CELL_WIDTH * anchors.getD (b * 2) 0
  let height := Real.exp th * CELL_HEIGHT * anchors.getD (b * 2 + 1) 0
  let confidence := Sigmoid tc
  if confidence < threshold then
    pure none
  else do
    let classes ← mapOpt
      (fun i => readM modelOutputs cx cy (i + channel + BOX_INFO_FEATURE_COUNT))
      (List.range CLASS_COUNT)
    let dist := Softmax classes
    let topScore := dist.getD (maxIdx dist) 0 * confidence
    let topClass := maxIdx dist
    if topScore < threshold then
      pure none
    else
      pure (some
        { label := labels.getD topClass ""
          x := x - width / 2
          y := y - height / 2
          width := width
          height := height
          score := topScore })

/-- `YoloProcessor::GetRecognizedObjects`: the triple loop
(`cy` outer, `cx` middle, `b` inner), appending each surviving box. -/
noncomputable def GetRecognizedObjects (modelOutputs : List ℝ)
    (threshold : ℝ) : Option (List YoloBox) :=
  (List.range ROW_COUNT).foldlM (fun boxes cy =>
    (List.range COL_COUNT).foldlM (fun boxes cx =>
      (List.range BOXES_PER_CELL).foldlM (fun boxes b => do
        let r ← stepM modelOutputs threshold cy cx b
        pure (boxes ++ r.toList)) boxes) boxes) []

/-! ### Total (in-range) description of the decoder -/

/-- Total counterpart of `readM`: the raw value at cell `(x, y)`,
channel `channel`, with junk default 0 (used only where the read is
proved in range). -/
noncomputable def readT (modelOutputs : List ℝ) (x y channel : ℕ) : ℝ :=
  modelOutputs.getD (GetOffset (x : ℤ) (y : ℤ) (channel : ℤ)).toNat 0

def boxChannel (b : ℕ) : ℕ := b * (CLASS_COUNT + BOX_INFO_FEATURE_COUNT)

/-- The objectness of anchor `b` of cell `(cx, cy)`: sigmoid of the
fifth raw box value `tc`. -/
noncomputable def objectness (o : List ℝ) (cy cx b : ℕ) : ℝ :=
  Sigmoid (readT o cx cy (boxChannel b + 4))

/-- The class-probability distribution of anchor `b` of cell
`(cx, cy)`: softmax of the 20 class logits. -/
noncomputable def classDist (o : List ℝ) (cy cx b : ℕ) : List ℝ :=
  Softmax ((List.range CLASS_COUNT).map fun i =>
    readT o cx cy (i + boxChannel b + BOX_INFO_FEATURE_COUNT))

noncomputable def centerX (o : List ℝ) (cy cx b : ℕ) : ℝ :=
  ((cx : ℝ) + Sigmoid (readT o cx cy (boxChannel b))) * CELL_WIDTH

noncomputable def centerY (o : List ℝ) (cy cx b : ℕ) : ℝ :=
  ((cy : ℝ) + Sigmoid (readT o cx cy (boxChannel b + 1))) * CELL_HEIGHT

noncomputable def boxWidth (o : List ℝ) (cy cx b : ℕ) : ℝ :=
  Real.exp (readT o cx cy (boxChannel b + 2)) * CELL_WIDTH *
    anchors.getD (b * 2) 0

noncomputable def boxHeight (o : List ℝ) (cy cx b : ℕ) : ℝ :=
  Real.exp (readT o cx cy (boxChannel b + 3)) * CELL_HEIGHT *
    anchors.getD (b * 2 + 1) 0

/-- Total description of `stepM` (valid once every read is in range):
stage 1 drops the anchor when objectness is below threshold, stage 2
drops it when the combined top score is, otherwise the box is emitted. -/
noncomputable def stepT (o : List ℝ) (t : ℝ) (cy cx b : ℕ) :
    Option YoloBox :=
  if objectness o cy cx b < t then none
  else
    let dist := classDist o cy cx b
    let topScore := dist.getD (maxIdx dist) 0 * objectness o cy cx b
    if topScore < t then none
    else some
      { label := labels.getD (maxIdx dist) ""
        x := centerX o cy cx b - boxWidth o cy cx b / 2
        y := centerY o cy cx b - boxHeight o cy cx b / 2
        width := boxWidth o cy cx b
        height := boxHeight o cy cx b
        score := topScore }

/-- The decoder's scan order: row-major, `cy` outer, `cx` middle,
anchor index `b` inner. -/
def scanOrder : List (ℕ × ℕ × ℕ) :=
  (List.range ROW_COUNT).flatMap fun cy =>
    (List.range COL_COUNT).flatMap fun cx =>
      (List.range BOXES_PER_CELL).map fun b => (cy, cx, b)

/-- The decoded box list on an in-range tensor: the per-anchor results
in scan order, filtered anchors dropped. -/
noncomputable def decodeT (o : List ℝ) (t : ℝ) : List YoloBox :=
  scanOrder.filterMap fun p => stepT o t p.1 p.2.1 p.2.2

/-- The largest finite value of a 32-bit IEEE-754 float,
`(2 - 2^-23) * 2^127`. -/
noncomputable def FLOAT32_MAX : ℝ := (2 - 2 ^ (-23 : ℤ)) * 2 ^ (127 : ℕ)

/-- The all-zero tensor of the expected length `13 * 13 * 125 = 21125`
(the concrete scenario of spec §8). -/
noncomputable def zeroTensor : List ℝ :=
  List.replicate (ROW_COUNT * COL_COUNT * CHANNEL_COUNT) 0

/-! ### Basic facts about `Sigmoid` -/

lemma sigmoid_pos (v : ℝ) : 0 < Sigmoid v := by
  unfold Sigmoid
  positivity

lemma sigmoid_lt_one (v : ℝ) : Sigmoid v < 1 := by
  unfold Sigmoid
  rw [div_lt_one (by positivity)]
  linarith [Real.exp_pos v]

lemma sigmoid_zero : Sigmoid 0 = 1 / 2 := by
  unfold Sigmoid
  rw [Real.exp_zero]
  norm_num

lemma sigmoid_eq_sigmoidSpec (v : ℝ) : Sigmoid v = sigmoidSpec v := by
  unfold Sigmoid sigmoidSpec
  rw [Real.exp_neg]
  have h1 : Real.exp v ≠ 0 := (Real.exp_pos v).ne'
  have h2 : (1 : ℝ) + Real.exp v ≠ 0 := by positivity
  field_simp
  ring

/-! ### Offset arithmetic and in-range reads -/

lemma getOffset_natCast (x y c : ℕ) :
    (GetOffset (x : ℤ) (y : ℤ) (c : ℤ)).toNat = c * 169 + y * 13 + x := by
  have h : GetOffset (x : ℤ) (y : ℤ) (c : ℤ) =
      ((c * 169 + y * 13 + x : ℕ) : ℤ) := by
    unfold GetOffset channelStride ROW_COUNT COL_COUNT
    push_cast
    ring
  rw [h, Int.toNat_natCast]

lemma readM_eq_readT (o : List ℝ) (x y c : ℕ)
    (h : c * 169 + y * 13 + x < o.length) :
    readM o x y c = some (readT o x y c) := by
  unfold readM readT
  rw [getOffset_natCast, List.getD_eq_getElem?_getD, List.get?_eq_getElem?]
  cases hx : o[c * 169 + y * 13 + x]? with
  | none =>
    rw [List.getElem?_eq_none_iff] at hx
    omega
  | some v => simp

lemma readT_zero (n : ℕ) (x y c : ℕ) :
    readT (List.replicate n (0 : ℝ)) x y c = 0 := by
  unfold readT
  rw [List.getD_eq_getElem?_getD]
  cases hx : (List.replicate n (0 : ℝ))[(GetOffset (x : ℤ) (y : ℤ) (c : ℤ)).toNat]? with
  | none => simp
  | some v =>
    have hv : v = 0 := List.eq_of_mem_replicate (List.getElem?_mem hx)
    simp [hv]

/-! ### Collapsing the monadic loops on an in-range tensor -/

lemma mapOpt_eq_map (f : ℕ → Option ℝ) (g : ℕ → ℝ) (l : List ℕ)
    (h : ∀ i ∈ l, f i = some (g i)) : mapOpt f l = some (l.map g) := by
  induction l with
  | nil => rfl
  | cons i is ih =>
    have hi := h i (List.mem_cons_self i is)
    have his := ih fun j hj => h j (List.mem_cons_of_mem _ hj)
    simp only [mapOpt, hi, his, Option.some_bind, List.map_cons]
    rfl

lemma foldlM_eq_foldl {α β : Type} (f : β → α → Option β) (g : β → α → β)
    (l : List α) (h : ∀ acc a, a ∈ l → f acc a = some (g acc a)) (acc : β) :
    l.foldlM f acc = some (l.foldl g acc) := by
  induction l generalizing acc with
  | nil => rfl
  | cons a as ih =>
    rw [List.foldlM_cons, h acc a (List.mem_cons_self _ _)]
    show as.foldlM f (g acc a) = _
    rw [ih (fun acc2 b hb => h acc2 b (List.mem_cons_of_mem _ hb)) (g acc a),
      List.foldl_cons]

lemma stepM_eq_stepT (o : List ℝ) (t : ℝ) (cy cx b : ℕ)
    (hcy : cy < 13) (hcx : cx < 13) (hb : b < 5) (hlen : 21125 ≤ o.length) :
    stepM o t cy cx b = some (stepT o t cy cx b) := by
  have hread : ∀ c : ℕ, c ≤ 124 →
      readM o cx cy c = some (readT o cx cy c) := by
    intro c hc
    apply readM_eq_readT
    omega
  have hbc : b * (CLASS_COUNT + BOX_INFO_FEATURE_COUNT) ≤ 100 := by
    unfold CLASS_COUNT BOX_INFO_FEATURE_COUNT
    omega
  have hclasses : mapOpt
      (fun i => readM o cx cy
        (i + b * (CLASS_COUNT + BOX_INFO_FEATURE_COUNT) + BOX_INFO_FEATURE_COUNT))
      (List.range CLASS_COUNT) =
      some ((List.range CLASS_COUNT).map fun i => readT o cx cy
        (i + b * (CLASS_COUNT + BOX_INFO_FEATURE_COUNT) + BOX_INFO_FEATURE_COUNT)) := by
    apply mapOpt_eq_map
    intro i hi
    rw [List.mem_range] at hi
    apply hread
    have hi2 : i < 20 := by
      unfold CLASS_COUNT at hi
      exact hi
    unfold CLASS_COUNT BOX_INFO_FEATURE_COUNT
    omega
  unfold stepM
  dsimp only
  rw [hread _ (by omega), hread _ (by omega), hread _ (by omega),
    hread _ (by omega), hread _ (by omega)]
  simp only [Option.bind_eq_bind, Option.some_bind]
  by_cases hobj :
      Sigmoid (readT o cx cy (b * (CLASS_COUNT + BOX_INFO_FEATURE_COUNT) + 4)) < t
  · rw [if_pos hobj]
    unfold stepT objectness boxChannel
    rw [if_pos hobj]
    rfl
  · rw [if_neg hobj, hclasses]
    simp only [Option.bind_eq_bind, Option.some_bind]
    unfold stepT objectness classDist centerX centerY boxWidth boxHeight boxChannel
    rw [if_neg hobj]
    dsimp only
    split_ifs with hts
    · rfl
    · rfl

lemma stepM_stage1 (o : List ℝ) (t : ℝ) (cy cx b : ℕ)
    (hcy : cy < 13) (hcx : cx < 13) (hb : b < 5) (hlen : 17745 ≤ o.length)
    (hobj : objectness o cy cx b < t) : stepM o t cy cx b = some none := by
  have hread : ∀ c : ℕ, c ≤ 104 →
      readM o cx cy c = some (readT o cx cy c) := by
    intro c hc
    apply readM_eq_readT
    omega
  have hbc : b * (CLASS_COUNT + BOX_INFO_FEATURE_COUNT) ≤ 100 := by
    unfold CLASS_COUNT BOX_INFO_FEATURE_COUNT
    omega
  unfold stepM
  dsimp only
  rw [hread _ (by omega), hread _ (by omega), hread _ (by omega),
    hread _ (by omega), hread _ (by omega)]
  simp only [Option.bind_eq_bind, Option.some_bind]
  unfold objectness boxChannel at hobj
  rw [if_pos hobj]
  rfl

/-! ### Flattening the pure nested fold into the scan-order list -/

lemma foldl_append_eq_flatMap {α β : Type} (g : α → List β) (l : List α)
    (acc : List β) :
    l.foldl (fun a i => a ++ g i) acc = acc ++ l.flatMap g := by
  induction l generalizing acc with
  | nil => simp
  | cons x xs ih => simp [List.foldl_cons, ih, List.flatMap_cons]

lemma filterMap_flatMap_comm {α β γ : Type} (l : List α) (g : α → List β)
    (f : β → Option γ) :
    (l.flatMap g).filterMap f = l.flatMap fun a => (g a).filterMap f := by
  induction l with
  | nil => simp
  | cons x xs ih => simp [List.flatMap_cons, List.filterMap_append, ih]

lemma filterMap_eq_flatMap_toList {α β : Type} (f : α → Option β)
    (l : List α) : l.filterMap f = l.flatMap fun a => (f a).toList := by
  induction l with
  | nil => simp
  | cons x xs ih =>
    rw [List.filterMap_cons, List.flatMap_cons, ← ih]
    cases h : f x <;> simp

lemma decodeT_eq_flatMap (o : List ℝ) (t : ℝ) :
    decodeT o t = (List.range ROW_COUNT).flatMap fun cy =>
      (List.range COL_COUNT).flatMap fun cx =>
        (List.range BOXES_PER_CELL).flatMap fun b =>
          (stepT o t cy cx b).toList := by
  unfold decodeT scanOrder
  rw [filterMap_flatMap_comm]
  refine List.flatMap_congr ?_
  intro cy _
  rw [filterMap_flatMap_comm]
  refine List.flatMap_congr ?_
  intro cx _
  rw [List.filterMap_map, filterMap_eq_flatMap_toList]
  rfl

/-- On an in-range tensor the decoder completes (`some`) and returns
exactly the scan-order filter-map of the per-anchor results. -/
lemma decode_eq_decodeT (o : List ℝ) (t : ℝ) (hlen : 21125 ≤ o.length) :
    GetRecognizedObjects o t = some (decodeT o t) := by
  have hinner : ∀ cy cx : ℕ, cy < 13 → cx < 13 → ∀ boxes : List YoloBox,
      (List.range BOXES_PER_CELL).foldlM (fun boxes b => do
        let r ← stepM o t cy cx b
        pure (boxes ++ r.toList)) boxes =
      some ((List.range BOXES_PER_CELL).foldl
        (fun boxes b => boxes ++ (stepT o t cy cx b).toList) boxes) := by
    intro cy cx hcy hcx boxes
    apply foldlM_eq_foldl
    intro acc b hbmem
    rw [List.mem_range] at hbmem
    have hb : b < 5 := by
      unfold BOXES_PER_CELL at hbmem
      omega
    rw [stepM_eq_stepT o t cy cx b hcy hcx hb hlen]
    rfl
  have hmiddle : ∀ cy : ℕ, cy < 13 → ∀ boxes : List YoloBox,
      (List.range COL_COUNT).foldlM (fun boxes cx =>
        (List.range BOXES_PER_CELL).foldlM (fun boxes b => do
          let r ← stepM o t cy cx b
          pure (boxes ++ r.toList)) boxes) boxes =
      some ((List.range COL_COUNT).foldl (fun boxes cx =>
        (List.range BOXES_PER_CELL).foldl
          (fun boxes b => boxes ++ (stepT o t cy cx b).toList) boxes) boxes) := by
    intro cy hcy boxes
    apply foldlM_eq_foldl
    intro acc cx hcxmem
    rw [List.mem_range] at hcxmem
    have hcx : cx < 13 := by
      unfold COL_COUNT at hcxmem
      omega
    exact hinner cy cx hcy hcx acc
  have houter :
      GetRecognizedObjects o t =
      some ((List.range ROW_COUNT).foldl (fun boxes cy =>
        (List.range COL_COUNT).foldl (fun boxes cx =>
          (List.range BOXES_PER_CELL).foldl
            (fun boxes b => boxes ++ (stepT o t cy cx b).toList) boxes) boxes) []) := by
    unfold GetRecognizedObjects
    apply foldlM_eq_foldl
    intro acc cy hcymem
    rw [List.mem_range] at hcymem
    have hcy : cy < 13 := by
      unfold ROW_COUNT at hcymem
      omega
    exact hmiddle cy hcy acc
  refine houter.trans (congrArg some ?_)
  refine Eq.trans ?_ (decodeT_eq_flatMap o t).symm
  have hin : ∀ cy cx : ℕ, ∀ boxes : List YoloBox,
      (List.range BOXES_PER_CELL).foldl
        (fun boxes b => boxes ++ (stepT o t cy cx b).toList) boxes =
      boxes ++ (List.range BOXES_PER_CELL).flatMap
        (fun b => (stepT o t cy cx b).toList) :=
    fun cy cx boxes => foldl_append_eq_flatMap _ _ boxes
  have hmid : ∀ cy : ℕ, ∀ boxes : List YoloBox,
      (List.range COL_COUNT).foldl (fun boxes cx =>
        (List.range BOXES_PER_CELL).foldl
          (fun boxes b => boxes ++ (stepT o t cy cx b).toList) boxes) boxes =
      boxes ++ (List.range COL_COUNT).flatMap (fun cx =>
        (List.range BOXES_PER_CELL).flatMap
          (fun b => (stepT o t cy cx b).toList)) := by
    intro cy boxes
    refine Eq.trans (List.foldl_ext _ (fun boxes cx => boxes ++
        (List.range BOXES_PER_CELL).flatMap
          (fun b => (stepT o t cy cx b).toList)) boxes
      (fun acc cx _ => hin cy cx acc)) ?_
    exact foldl_append_eq_flatMap _ _ boxes
  refine Eq.trans (List.foldl_ext _ (fun boxes cy => boxes ++
      (List.range COL_COUNT).flatMap (fun cx =>
        (List.range BOXES_PER_CELL).flatMap
          (fun b => (stepT o t cy cx b).toList))) []
    (fun acc cy _ => hmid cy acc)) ?_
  exact (foldl_append_eq_flatMap _ _ []).trans (List.nil_append _)

/-! ### Facts about `maxElem` (the value of `std::max_element`) -/

lemma foldl_max_init_le (l : List ℝ) (b : ℝ) : b ≤ l.foldl max b := by
  induction l generalizing b with
  | nil => exact le_refl b
  | cons x xs ih => exact le_trans (le_max_left b x) (ih (max b x))

lemma mem_le_foldl_max (l : List ℝ) (b x : ℝ) (h : x ∈ l) :
    x ≤ l.foldl max b := by
  induction l generalizing b with
  | nil => cases h
  | cons y ys ih =>
    rcases List.mem_cons.mp h with rfl | hmem
    · exact le_trans (le_max_right b x) (foldl_max_init_le ys (max b x))
    · exact ih (max b y) hmem

lemma le_maxElem (l : List ℝ) (x : ℝ) (h : x ∈ l) : x ≤ maxElem l := by
  cases l with
  | nil => cases h
  | cons y ys =>
    rcases List.mem_cons.mp h with rfl | hmem
    · exact foldl_max_init_le ys x
    · exact mem_le_foldl_max ys y x hmem

lemma foldl_max_mem (l : List ℝ) (b : ℝ) :
    l.foldl max b = b ∨ l.foldl max b ∈ l := by
  induction l generalizing b with
  | nil => exact Or.inl rfl
  | cons x xs ih =>
    rcases ih (max b x) with h | h
    · rcases le_total b x with hbx | hxb
      · rw [List.foldl_cons, h, max_eq_right hbx]
        exact Or.inr (List.mem_cons_self _ _)
      · rw [List.foldl_cons, h, max_eq_left hxb]
        exact Or.inl rfl
    · exact Or.inr (List.mem_cons_of_mem _ h)

lemma maxElem_mem (l : List ℝ) (h : l ≠ []) : maxElem l ∈ l := by
  cases l with
  | nil => exact absurd rfl h
  | cons x xs =>
    rcases foldl_max_mem xs x with hx | hx
    · rw [maxElem, hx]
      exact List.mem_cons_self _ _
    · exact List.mem_cons_of_mem _ hx

lemma maxElem_of_const (l : List ℝ) (c : ℝ) (h : l ≠ [])
    (hc : ∀ x ∈ l, x = c) : maxElem l = c :=
  hc (maxElem l) (maxElem_mem l h)

lemma foldl_max_shift (l : List ℝ) (a b : ℝ) :
    l.foldl max (max a b) = max a (l.foldl max b) := by
  induction l generalizing a b with
  | nil => rfl
  | cons x xs ih =>
    rw [List.foldl_cons, List.foldl_cons, max_assoc, ih]

lemma maxElem_cons (x y : ℝ) (ys : List ℝ) :
    maxElem (x :: y :: ys) = max x (maxElem (y :: ys)) := by
  show (y :: ys).foldl max x = max x (ys.foldl max y)
  rw [List.foldl_cons]
  exact foldl_max_shift ys x y

/-! ### Facts about `maxIdx` (the index picked by `std::max_element`) -/

lemma maxIdx_lt_length (l : List ℝ) (h : l ≠ []) : maxIdx l < l.length := by
  induction l with
  | nil => exact absurd rfl h
  | cons x xs ih =>
    rw [maxIdx]
    by_cases hm : maxElem (x :: xs) ≤ x
    · rw [if_pos hm]
      simp
    · rw [if_neg hm]
      have hxs : xs ≠ [] := by
        intro hnil
        subst hnil
        exact hm (le_refl x)
      have := ih hxs
      simp only [List.length_cons]
      omega

lemma maxElem_cons_of_not_le (x : ℝ) (xs : List ℝ)
    (h : ¬ maxElem (x :: xs) ≤ x) : maxElem (x :: xs) = maxElem xs := by
  cases xs with
  | nil => exact absurd (le_refl x) h
  | cons y ys =>
    rw [maxElem_cons] at h ⊢
    rcases le_total (maxElem (y :: ys)) x with hle | hle
    · exact absurd (le_of_eq (max_eq_left hle)) h
    · exact max_eq_right hle

lemma getD_maxIdx_eq_maxElem (l : List ℝ) (h : l ≠ []) :
    l.getD (maxIdx l) 0 = maxElem l := by
  induction l with
  | nil => exact absurd rfl h
  | cons x xs ih =>
    rw [maxIdx]
    by_cases hm : maxElem (x :: xs) ≤ x
    · rw [if_pos hm]
      simp only [List.getD_cons_zero]
      exact le_antisymm (le_maxElem (x :: xs) x (List.mem_cons_self _ _)) hm
    · rw [if_neg hm]
      have hxs : xs ≠ [] := by
        intro hnil
        subst hnil
        exact hm (le_refl x)
      simp only [List.getD_cons_succ]
      rw [ih hxs, maxElem_cons_of_not_le x xs hm]

lemma getD_lt_of_lt_maxIdx (l : List ℝ) (h : l ≠ []) (j : ℕ)
    (hj : j < maxIdx l) : l.getD j 0 < l.getD (maxIdx l) 0 := by
  induction l generalizing j with
  | nil => exact absurd rfl h
  | cons x xs ih =>
    rw [maxIdx] at hj ⊢
    by_cases hm : maxElem (x :: xs) ≤ x
    · rw [if_pos hm] at hj
      omega
    · rw [if_neg hm] at hj ⊢
      have hxs : xs ≠ [] := by
        intro hnil
        subst hnil
        exact hm (le_refl x)
      cases j with
      | zero =>
        simp only [List.getD_cons_zero, List.getD_cons_succ]
        rw [getD_maxIdx_eq_maxElem xs hxs, ← maxElem_cons_of_not_le x xs hm]
        exact lt_of_not_le hm
      | succ j =>
        have hj2 : j < maxIdx xs := by omega
        simp only [List.getD_cons_succ]
        exact ih hxs j hj2

lemma getD_le_getD_maxIdx (l : List ℝ) (j : ℕ) (hj : j < l.length) :
    l.getD j 0 ≤ l.getD (maxIdx l) 0 := by
  have hne : l ≠ [] := by
    intro hnil
    subst hnil
    simp at hj
  rw [getD_maxIdx_eq_maxElem l hne]
  apply le_maxElem
  rw [List.getD_eq_getElem?_getD, List.getElem?_eq_getElem hj]
  exact List.getElem_mem hj

/-! ### Facts about `Softmax` -/

lemma Softmax_length (v : List ℝ) : (Softmax v).length = v.length := by
  unfold Softmax
  simp

lemma exps_sum_pos (v : List ℝ) (h : v ≠ []) (m : ℝ) :
    0 < (v.map fun x => Real.exp (x - m)).sum := by
  apply List.sum_pos
  · intro a ha
    rcases List.mem_map.mp ha with ⟨x, _, rfl⟩
    exact Real.exp_pos _
  · simpa using h

lemma sum_map_div (l : List ℝ) (s : ℝ) :
    (l.map fun x => x / s).sum = l.sum / s := by
  induction l with
  | nil => simp
  | cons x xs ih => simp [ih, add_div]

lemma Softmax_sum (v : List ℝ) (h : v ≠ []) : (Softmax v).sum = 1 := by
  unfold Softmax
  dsimp only
  rw [sum_map_div]
  exact div_self (exps_sum_pos v h (maxElem v)).ne'

lemma Softmax_eq_unshifted (v : List ℝ) (h : v ≠ []) :
    Softmax v = v.map fun x => Real.exp x / (v.map Real.exp).sum := by
  unfold Softmax
  dsimp only
  rw [List.map_map]
  apply List.map_congr_left
  intro x _
  show Real.exp (x - maxElem v) / (v.map fun y => Real.exp (y - maxElem v)).sum = _
  have hm : (v.map fun y => Real.exp (y - maxElem v)).sum =
      (v.map Real.exp).sum / Real.exp (maxElem v) := by
    rw [← sum_map_div, List.map_map]
    apply congrArg
    apply List.map_congr_left
    intro y _
    exact Real.exp_sub y (maxElem v)
  rw [hm, Real.exp_sub]
  have h1 : Real.exp (maxElem v) ≠ 0 := (Real.exp_pos _).ne'
  have h2 : (v.map Real.exp).sum ≠ 0 := by
    have := exps_sum_pos v h 0
    simp only [sub_zero] at this
    exact this.ne'
  field_simp

lemma Softmax_const (v : List ℝ) (c : ℝ) (h : v ≠ [])
    (hc : ∀ x ∈ v, x = c) :
    Softmax v = List.replicate v.length (1 / (v.length : ℝ)) := by
  have hmax : maxElem v = c := maxElem_of_const v c h hc
  have hexps : (v.map fun x => Real.exp (x - maxElem v)) =
      List.replicate v.length 1 := by
    rw [hmax]
    rw [show (v.map fun x => Real.exp (x - c)) = v.map fun _ => (1 : ℝ) from
      List.map_congr_left fun x hx => by rw [hc x hx, sub_self, Real.exp_zero]]
    exact List.map_const' v 1
  unfold Softmax
  dsimp only
  rw [hexps, List.sum_replicate, nsmul_eq_mul, mul_one, List.map_replicate]

/-! ### Inverting a successful emission of `stepM` -/

lemma readM_some_eq (o : List ℝ) (x y c : ℕ) (v : ℝ)
    (h : readM o x y c = some v) : v = readT o x y c := by
  unfold readM at h
  unfold readT
  rw [List.getD_eq_getElem?_getD, ← List.get?_eq_getElem?, h]
  rfl

lemma bind_some_inv {α β : Type} (x : Option α) (f : α → Option β) (r : β)
    (h : x >>= f = some r) : ∃ v, x = some v ∧ f v = some r := by
  cases x with
  | none => simp at h
  | some v => exact ⟨v, rfl, by simpa using h⟩

lemma mapOpt_some_inv (f : ℕ → Option ℝ) (g : ℕ → ℝ)
    (hfg : ∀ i v, f i = some v → v = g i) :
    ∀ (l : List ℕ) (res : List ℝ), mapOpt f l = some res → res = l.map g := by
  intro l
  induction l with
  | nil =>
    intro res h
    simp only [mapOpt, Option.some.injEq] at h
    rw [← h]
    rfl
  | cons i is ih =>
    intro res h
    unfold mapOpt at h
    cases hf : f i with
    | none =>
      rw [hf] at h
      simp at h
    | some v =>
      rw [hf] at h
      simp only [Option.bind_eq_bind, Option.some_bind] at h
      cases hr : mapOpt f is with
      | none =>
        rw [hr] at h
        simp at h
      | some rest =>
        rw [hr] at h
        simp only [Option.some_bind] at h
        have hvr : v :: rest = res := by simpa using h
        rw [← hvr, hfg i v hf, ih rest hr, List.map_cons]

lemma stepM_emit_inv (o : List ℝ) (t : ℝ) (cy cx b : ℕ) (box : YoloBox)
    (h : stepM o t cy cx b = some (some box)) :
    ¬ objectness o cy cx b < t ∧
    ¬ (classDist o cy cx b).getD (maxIdx (classDist o cy cx b)) 0 *
        objectness o cy cx b < t ∧
    box = { label := labels.getD (maxIdx (classDist o cy cx b)) ""
            x := centerX o cy cx b - boxWidth o cy cx b / 2
            y := centerY o cy cx b - boxHeight o cy cx b / 2
            width := boxWidth o cy cx b
            height := boxHeight o cy cx b
            score := (classDist o cy cx b).getD (maxIdx (classDist o cy cx b)) 0 *
              objectness o cy cx b } := by
  unfold stepM at h
  dsimp only at h
  obtain ⟨tx, h1, h⟩ := bind_some_inv _ _ _ h
  obtain ⟨ty, h2, h⟩ := bind_some_inv _ _ _ h
  obtain ⟨tw, h3, h⟩ := bind_some_inv _ _ _ h
  obtain ⟨th, h4, h⟩ := bind_some_inv _ _ _ h
  obtain ⟨tc, h5, h⟩ := bind_some_inv _ _ _ h
  rw [readM_some_eq _ _ _ _ _ h1] at h
  rw [readM_some_eq _ _ _ _ _ h2] at h
  rw [readM_some_eq _ _ _ _ _ h3] at h
  rw [readM_some_eq _ _ _ _ _ h4] at h
  rw [readM_some_eq _ _ _ _ _ h5] at h
  by_cases hobj :
      Sigmoid (readT o cx cy (b * (CLASS_COUNT + BOX_INFO_FEATURE_COUNT) + 4)) < t
  · rw [if_pos hobj] at h
    exact absurd h (by simp [pure])
  · rw [if_neg hobj] at h
    obtain ⟨classes, hc, h⟩ := bind_some_inv _ _ _ h
    have hcc : classes = (List.range CLASS_COUNT).map fun i =>
        readT o cx cy (i + b * (CLASS_COUNT + BOX_INFO_FEATURE_COUNT) +
          BOX_INFO_FEATURE_COUNT) :=
      mapOpt_some_inv _ _ (fun i v hv => readM_some_eq _ _ _ _ _ hv) _ _ hc
    rw [hcc] at h
    by_cases hts :
        (Softmax ((List.range CLASS_COUNT).map fun i =>
          readT o cx cy (i + b * (CLASS_COUNT + BOX_INFO_FEATURE_COUNT) +
            BOX_INFO_FEATURE_COUNT))).getD
          (maxIdx (Softmax ((List.range CLASS_COUNT).map fun i =>
            readT o cx cy (i + b * (CLASS_COUNT + BOX_INFO_FEATURE_COUNT) +
              BOX_INFO_FEATURE_COUNT)))) 0 *
          Sigmoid (readT o cx cy (b * (CLASS_COUNT + BOX_INFO_FEATURE_COUNT) + 4))
          < t
    · rw [if_pos hts] at h
      exact absurd h (by simp [pure])
    · rw [if_neg hts] at h
      refine ⟨?_, ?_, ?_⟩
      · unfold objectness boxChannel
        exact hobj
      · unfold classDist objectness boxChannel
        exact hts
      · unfold classDist objectness centerX centerY boxWidth boxHeight boxChannel
        simpa using h.symm

/-! ### High thresholds, monotonicity, and the empty decode -/

lemma stepT_none_of_one_le (o : List ℝ) (t : ℝ) (cy cx b : ℕ) (ht : 1 ≤ t) :
    stepT o t cy cx b = none := by
  have h1 : objectness o cy cx b < t :=
    lt_of_lt_of_le (by unfold objectness; exact sigmoid_lt_one _) ht
  unfold stepT
  rw [if_pos h1]

lemma decode_empty_of_one_le (o : List ℝ) (t : ℝ) (hlen : 21125 ≤ o.length)
    (ht : 1 ≤ t) : GetRecognizedObjects o t = some [] := by
  refine (decode_eq_decodeT o t hlen).trans (congrArg some ?_)
  unfold decodeT
  rw [List.filterMap_eq_nil_iff]
  intro p _
  exact stepT_none_of_one_le o t p.1 p.2.1 p.2.2 ht

lemma stepT_mono (o : List ℝ) (t1 t2 : ℝ) (h12 : t1 ≤ t2) (cy cx b : ℕ)
    (box : YoloBox) (h : stepT o t2 cy cx b = some box) :
    stepT o t1 cy cx b = some box := by
  unfold stepT at h ⊢
  by_cases h1 : objectness o cy cx b < t2
  · rw [if_pos h1] at h
    exact absurd h (by simp)
  · rw [if_neg h1] at h
    have h1b : ¬ objectness o cy cx b < t1 := fun hlt =>
      h1 (lt_of_lt_of_le hlt h12)
    rw [if_neg h1b]
    dsimp only at h ⊢
    by_cases h2 : (classDist o cy cx b).getD (maxIdx (classDist o cy cx b)) 0 *
        objectness o cy cx b < t2
    · rw [if_pos h2] at h
      simp at h
    · rw [if_neg h2] at h
      rw [if_neg fun hlt => h2 (lt_of_lt_of_le hlt h12)]
      exact h

lemma filterMap_sublist_mono {α β : Type} (f g : α → Option β)
    (h : ∀ a b2, g a = some b2 → f a = some b2) (l : List α) :
    (l.filterMap g).Sublist (l.filterMap f) := by
  induction l with
  | nil => simp
  | cons x xs ih =>
    cases hg : g x with
    | some b2 =>
      simp only [List.filterMap_cons, hg, h x b2 hg]
      exact List.Sublist.cons₂ b2 ih
    | none =>
      simp only [List.filterMap_cons, hg]
      cases hf : f x with
      | none => exact ih
      | some c => exact List.Sublist.cons c ih

/-! ### Evaluating the decoder on the all-zero tensor -/

lemma length_zeroTensor : zeroTensor.length = 21125 := by
  unfold zeroTensor ROW_COUNT COL_COUNT CHANNEL_COUNT
  rw [List.length_replicate]

lemma readT_zeroTensor (x y c : ℕ) : readT zeroTensor x y c = 0 := by
  unfold zeroTensor
  exact readT_zero _ x y c

lemma objectness_zeroTensor (cy cx b : ℕ) :
    objectness zeroTensor cy cx b = 1 / 2 := by
  unfold objectness
  rw [readT_zeroTensor, sigmoid_zero]

lemma classDist_zeroTensor (cy cx b : ℕ) :
    classDist zeroTensor cy cx b = List.replicate 20 ((1 : ℝ) / 20) := by
  unfold classDist
  have h1 : ((List.range CLASS_COUNT).map fun i =>
      readT zeroTensor cx cy (i + boxChannel b + BOX_INFO_FEATURE_COUNT)) =
      List.replicate 20 (0 : ℝ) := by
    rw [List.map_congr_left fun i _ => readT_zeroTensor cx cy
      (i + boxChannel b + BOX_INFO_FEATURE_COUNT)]
    rw [List.map_const', List.length_range]
    rfl
  rw [h1]
  rw [Softmax_const (List.replicate 20 (0 : ℝ)) 0 (by simp)
    (fun x hx => List.eq_of_mem_replicate hx)]
  norm_num

lemma maxIdx_replicate (n : ℕ) (v : ℝ) :
    maxIdx (List.replicate (n + 1) v) = 0 := by
  have hall : ∀ x ∈ (v :: List.replicate n v), x = v := by
    intro x hx
    rcases List.mem_cons.mp hx with rfl | hmem
    · rfl
    · exact List.eq_of_mem_replicate hmem
  have hmax : maxElem (v :: List.replicate n v) = v :=
    maxElem_of_const _ v (by simp) hall
  rw [List.replicate_succ]
  rw [maxIdx, hmax, if_pos (le_refl v)]

lemma stepT_zeroEval : stepT zeroTensor (1 / 50) 0 0 0 =
    some { label := "aeroplane", x := -1.28, y := -3.04,
           width := 34.56, height := 38.08, score := 1 / 40 } := by
  have hm : maxIdx (List.replicate 20 ((1 : ℝ) / 20)) = 0 := by
    rw [show (20 : ℕ) = 19 + 1 from rfl]
    exact maxIdx_replicate 19 _
  have hg : (List.replicate 20 ((1 : ℝ) / 20)).getD 0 0 = 1 / 20 := by
    rw [show (20 : ℕ) = 19 + 1 from rfl, List.replicate_succ,
      List.getD_cons_zero]
  unfold stepT
  rw [objectness_zeroTensor, classDist_zeroTensor]
  rw [if_neg (by norm_num)]
  dsimp only
  rw [hm, hg]
  rw [if_neg (by norm_num)]
  refine congrArg some ?_
  unfold centerX centerY boxWidth boxHeight boxChannel
  simp only [readT_zeroTensor, sigmoid_zero, Real.exp_zero]
  unfold CELL_WIDTH CELL_HEIGHT labels anchors
  simp only [List.getD_cons_zero, List.getD_cons_succ]
  simp only [YoloBox.mk.injEq]
  norm_num

lemma stepM_zeroEval : stepM zeroTensor (1 / 50) 0 0 0 =
    some (some { label := "aeroplane", x := -1.28, y := -3.04,
                 width := 34.56, height := 38.08, score := 1 / 40 }) := by
  rw [stepM_eq_stepT zeroTensor (1 / 50) 0 0 0 (by norm_num) (by norm_num)
    (by norm_num) (by simp [length_zeroTensor])]
  rw [stepT_zeroEval]

lemma float32_max_lt_exp_100 : FLOAT32_MAX < Real.exp 100 := by
  have h1 : (2 : ℝ) ^ (128 : ℕ) = Real.exp ((128 : ℕ) * Real.log 2) := by
    rw [Real.exp_nat_mul, Real.exp_log (by norm_num : (0 : ℝ) < 2)]
  have h2 : ((128 : ℕ) : ℝ) * Real.log 2 < 100 := by
    have := Real.log_two_lt_d9
    push_cast
    nlinarith
  have h3 : (2 : ℝ) ^ (128 : ℕ) < Real.exp 100 := by
    rw [h1]
    exact Real.exp_lt_exp.mpr h2
  have h7 : (2 : ℝ) ^ (128 : ℕ) = 2 ^ (127 : ℕ) * 2 := by
    rw [show (128 : ℕ) = 127 + 1 from rfl, pow_succ]
  have h5 : (0 : ℝ) < 2 ^ (-23 : ℤ) := by positivity
  have h6 : (0 : ℝ) < 2 ^ (127 : ℕ) := by positivity
  unfold FLOAT32_MAX
  nlinarith

/-! ## The claims -/

/-- Claim C1: over exact reals the code's sigmoid lies strictly in (0, 1),
equals 1/2 at 0, and agrees with the spec's prescribed `1/(1+exp(-v))`
form; but the intermediate value `exp(v)` that `Sigmoid` computes first
exceeds the largest finite 32-bit float already at `v = 100`, so the
float implementation overflows (`exp(100) = inf`, giving `inf/inf = NaN`)
instead of saturating toward 1 — the claim's no-overflow clause fails on
the code, while the spec's `exp(-v)` form keeps its intermediate at most
1. -/
theorem C1_sigmoid_range_and_overflow :
    (∀ v : ℝ, 0 < Sigmoid v ∧ Sigmoid v < 1) ∧
    Sigmoid 0 = 1 / 2 ∧
    (∀ v : ℝ, Sigmoid v = sigmoidSpec v) ∧
    FLOAT32_MAX < Real.exp 100 ∧
    Real.exp (-(100 : ℝ)) ≤ 1 := by
  refine ⟨fun v => ⟨sigmoid_pos v, sigmoid_lt_one v⟩, sigmoid_zero,
    sigmoid_eq_sigmoidSpec, float32_max_lt_exp_100, ?_⟩
  have h : Real.exp (-(100 : ℝ)) ≤ Real.exp 0 := Real.exp_le_exp.mpr (by norm_num)
  rw [← Real.exp_zero]
  exact h

/-- Claim C2: on any tensor of the expected length `13*13*125`, any
threshold at least 1 (in particular 1.0 itself, which exceeds every
achievable score since sigmoid is strictly below 1) makes the decoder
return an empty box list. -/
theorem C2_high_threshold_empty (o : List ℝ) (t : ℝ)
    (hlen : o.length = ROW_COUNT * COL_COUNT * CHANNEL_COUNT) (ht : 1 ≤ t) :
    GetRecognizedObjects o t = some [] := by
  apply decode_empty_of_one_le o t _ ht
  rw [hlen]
  norm_num [ROW_COUNT, COL_COUNT, CHANNEL_COUNT]

/-- Witness for C2: the all-zero tensor of the expected length with
threshold 1 decodes to the empty list. -/
theorem C2_witness :
    zeroTensor.length = ROW_COUNT * COL_COUNT * CHANNEL_COUNT ∧ (1 : ℝ) ≤ 1 ∧
    GetRecognizedObjects zeroTensor 1 = some [] := by
  have hlen : zeroTensor.length = ROW_COUNT * COL_COUNT * CHANNEL_COUNT := by
    unfold zeroTensor
    simp
  exact ⟨hlen, le_refl 1, C2_high_threshold_empty zeroTensor 1 hlen (le_refl 1)⟩

/-- Counterexample to C3: `GetOffset` does not fail on out-of-range
input; `GetOffset(cellX = 13, cellY = 0, channel = 0)` (cellX = cols is
out of range) silently returns the same index as the in-range cell
(0, 1) — it wraps into the next row instead of raising any
IndexOutOfRange condition. -/
theorem C3_counterexample : GetOffset 13 0 0 = GetOffset 0 1 0 := by decide

/-- Claim C3 as amended: `GetOffset` performs no bounds checking — it is
a total function returning `channel * (13*13) + cellY * 13 + cellX` for
all integer inputs, so an out-of-range `cellX = 13` silently aliases
cell (0, cellY+1) of the same channel. -/
theorem C3_no_bounds_check :
    (∀ x y channel : ℤ, GetOffset x y channel =
      channel * ((ROW_COUNT : ℤ) * (COL_COUNT : ℤ)) + y * (COL_COUNT : ℤ) + x) ∧
    (∀ y channel : ℤ, GetOffset 13 y channel = GetOffset 0 (y + 1) channel) := by
  constructor
  · intro x y c
    rfl
  · intro y c
    unfold GetOffset channelStride ROW_COUNT COL_COUNT
    push_cast
    ring

/-- Counterexample to C4: a tensor of length 21126 (not equal to the
expected `13*13*125 = 21125`) does not make the decoder fail with any
size-mismatch condition — the decode completes normally (here with
threshold 1, returning the empty list). -/
theorem C4_counterexample :
    (List.replicate 21126 (0 : ℝ)).length ≠ ROW_COUNT * COL_COUNT * CHANNEL_COUNT ∧
    GetRecognizedObjects (List.replicate 21126 (0 : ℝ)) 1 = some [] := by
  constructor
  · rw [List.length_replicate]
    norm_num [ROW_COUNT, COL_COUNT, CHANNEL_COUNT]
  · exact decode_empty_of_one_le _ 1
      (by rw [List.length_replicate]; norm_num) (le_refl 1)

/-- Claim C4 as amended: the decoder never checks the tensor size. Any
tensor at least as long as `13*13*125` decodes successfully (extra
entries are ignored), and an undersized tensor fails only through an
out-of-range element access inside the scan loop (modelled `none`), not
through any up-front size-mismatch check. -/
theorem C4_no_size_check :
    (∀ (o : List ℝ) (t : ℝ), ROW_COUNT * COL_COUNT * CHANNEL_COUNT ≤ o.length →
      GetRecognizedObjects o t = some (decodeT o t)) ∧
    GetRecognizedObjects [] 0 = none := by
  constructor
  · intro o t hlen
    apply decode_eq_decodeT
    calc (21125 : ℕ) = ROW_COUNT * COL_COUNT * CHANNEL_COUNT := by
          norm_num [ROW_COUNT, COL_COUNT, CHANNEL_COUNT]
      _ ≤ o.length := hlen
  · rfl

/-- Witness for C4: the expected-length all-zero tensor decodes
successfully at threshold 0. -/
theorem C4_witness :
    ROW_COUNT * COL_COUNT * CHANNEL_COUNT ≤ zeroTensor.length ∧
    GetRecognizedObjects zeroTensor 0 = some (decodeT zeroTensor 0) := by
  have h : ROW_COUNT * COL_COUNT * CHANNEL_COUNT ≤ zeroTensor.length := by
    rw [length_zeroTensor]
    norm_num [ROW_COUNT, COL_COUNT, CHANNEL_COUNT]
  exact ⟨h, C4_no_size_check.1 zeroTensor 0 h⟩

/-- Claim C5: the decoder scans cells row-major (`cy` outer, `cx`
middle, anchor `b` inner) and emits boxes in exactly that scan order
with no sorting (the output is the scan-order filter-map of the
per-anchor step); stage 1 discards an anchor whose objectness is below
the threshold while reading only the five box channels (it succeeds with
`some none` even when only the box channels — offsets below 17745 — are
in range, so the class logits are never read); stage 2, for anchors that
pass, compares the top softmax probability times objectness against the
same threshold and emits the box otherwise. -/
theorem C5_scan_order_two_stage (o : List ℝ) (t : ℝ) :
    (ROW_COUNT * COL_COUNT * CHANNEL_COUNT ≤ o.length →
      GetRecognizedObjects o t =
        some (scanOrder.filterMap fun p => stepT o t p.1 p.2.1 p.2.2)) ∧
    (∀ cy cx b : ℕ, cy < ROW_COUNT → cx < COL_COUNT → b < BOXES_PER_CELL →
      (17745 ≤ o.length → objectness o cy cx b < t →
        stepM o t cy cx b = some none) ∧
      (ROW_COUNT * COL_COUNT * CHANNEL_COUNT ≤ o.length →
        ¬ objectness o cy cx b < t →
        stepM o t cy cx b = some (
          if (classDist o cy cx b).getD (maxIdx (classDist o cy cx b)) 0 *
              objectness o cy cx b < t then none
          else some { label := labels.getD (maxIdx (classDist o cy cx b)) ""
                      x := centerX o cy cx b - boxWidth o cy cx b / 2
                      y := centerY o cy cx b - boxHeight o cy cx b / 2
                      width := boxWidth o cy cx b
                      height := boxHeight o cy cx b
                      score := (classDist o cy cx b).getD
                        (maxIdx (classDist o cy cx b)) 0 *
                        objectness o cy cx b }))) := by
  have hconv : (21125 : ℕ) = ROW_COUNT * COL_COUNT * CHANNEL_COUNT := by
    norm_num [ROW_COUNT, COL_COUNT, CHANNEL_COUNT]
  refine ⟨?_, ?_⟩
  · intro hlen
    have h21 : 21125 ≤ o.length := by
      rw [hconv]
      exact hlen
    exact decode_eq_decodeT o t h21
  · intro cy cx b hcy hcx hb
    constructor
    · intro hlen hobj
      exact stepM_stage1 o t cy cx b hcy hcx hb hlen hobj
    · intro hlen hobj
      have h21 : 21125 ≤ o.length := by
        rw [hconv]
        exact hlen
      rw [stepM_eq_stepT o t cy cx b hcy hcx hb h21]
      refine congrArg some ?_
      unfold stepT
      rw [if_neg hobj]

/-- Witness for C5: on the expected-length all-zero tensor, the decoder
output at threshold 1 equals the scan-order filter-map; stage 1 fires at
threshold 1 (objectness 1/2 < 1) yielding `some none`; stage 2 is
reached at threshold 1/50 (objectness 1/2 is not below it). -/
theorem C5_witness :
    (ROW_COUNT * COL_COUNT * CHANNEL_COUNT ≤ zeroTensor.length ∧
      GetRecognizedObjects zeroTensor 1 =
        some (scanOrder.filterMap fun p => stepT zeroTensor 1 p.1 p.2.1 p.2.2)) ∧
    (17745 ≤ zeroTensor.length ∧ objectness zeroTensor 0 0 0 < 1 ∧
      stepM zeroTensor 1 0 0 0 = some none) ∧
    (¬ objectness zeroTensor 0 0 0 < 1 / 50 ∧
      stepM zeroTensor (1 / 50) 0 0 0 = some (
        if (classDist zeroTensor 0 0 0).getD
            (maxIdx (classDist zeroTensor 0 0 0)) 0 *
            objectness zeroTensor 0 0 0 < 1 / 50 then none
        else some { label := labels.getD (maxIdx (classDist zeroTensor 0 0 0)) ""
                    x := centerX zeroTensor 0 0 0 - boxWidth zeroTensor 0 0 0 / 2
                    y := centerY zeroTensor 0 0 0 - boxHeight zeroTensor 0 0 0 / 2
                    width := boxWidth zeroTensor 0 0 0
                    height := boxHeight zeroTensor 0 0 0
                    score := (classDist zeroTensor 0 0 0).getD
                      (maxIdx (classDist zeroTensor 0 0 0)) 0 *
                      objectness zeroTensor 0 0 0 })) := by
  have hlen : ROW_COUNT * COL_COUNT * CHANNEL_COUNT ≤ zeroTensor.length := by
    rw [length_zeroTensor]
    norm_num [ROW_COUNT, COL_COUNT, CHANNEL_COUNT]
  have hlen2 : 17745 ≤ zeroTensor.length := by
    rw [length_zeroTensor]
    norm_num
  have hobj1 : objectness zeroTensor 0 0 0 < 1 := by
    rw [objectness_zeroTensor]
    norm_num
  have hobj2 : ¬ objectness zeroTensor 0 0 0 < 1 / 50 := by
    rw [objectness_zeroTensor]
    norm_num
  have hb : (0 : ℕ) < 13 := by norm_num
  refine ⟨⟨hlen, (C5_scan_order_two_stage zeroTensor 1).1 hlen⟩,
    ⟨hlen2, hobj1,
      ((C5_scan_order_two_stage zeroTensor 1).2 0 0 0 hb hb
        (by norm_num [BOXES_PER_CELL])).1 hlen2 hobj1⟩,
    ⟨hobj2,
      ((C5_scan_order_two_stage zeroTensor (1 / 50)).2 0 0 0 hb hb
        (by norm_num [BOXES_PER_CELL])).2 hlen hobj2⟩⟩

/-- Counterexample to C6: the code's anchor 0 has hardcoded scales
(1.08, 1.19), not (1.0, 1.0); at cell (0,0), anchor 0, all raw values 0
and cell size 32 the emitted box has width `exp(0)*32*1.08 = 34.56 ≠ 32`
and x `= 16 - 34.56/2 = -1.28 ≠ 0`, so the claim's concrete scenario
does not hold of the program. -/
theorem C6_counterexample :
    anchors.getD 0 0 ≠ 1 ∧
    stepM zeroTensor (1 / 50) 0 0 0 =
      some (some { label := "aeroplane", x := -1.28, y := -3.04,
                   width := 34.56, height := 38.08, score := 1 / 40 }) ∧
    (34.56 : ℝ) ≠ 32 ∧ (-1.28 : ℝ) ≠ 0 := by
  refine ⟨?_, stepM_zeroEval, by norm_num, by norm_num⟩
  unfold anchors
  simp only [List.getD_cons_zero]
  norm_num

/-- Claim C6 as amended: every emitted box for cell (cx, cy) and anchor
b has centerX `= (cx + sigmoid tx) * 32`, centerY
`= (cy + sigmoid ty) * 32`, width `= exp(tw) * 32 * anchors[2b]`, height
`= exp(th) * 32 * anchors[2b+1]` with x = centerX - width/2 and
y = centerY - height/2, where the anchor scales are the hardcoded array
(1.08, 1.19, 3.42, 4.41, 6.63, 11.38, 9.42, 5.11, 16.62, 10.52); in
particular at cell (0,0), anchor 0, zero raw values the emitted box is
x = -1.28, y = -3.04, width = 34.56, height = 38.08 (centerX = centerY
= 16). -/
theorem C6_box_geometry :
    (∀ (o : List ℝ) (t : ℝ) (cy cx b : ℕ) (box : YoloBox),
      stepM o t cy cx b = some (some box) →
      box.x = ((cx : ℝ) + Sigmoid (readT o cx cy (boxChannel b))) * CELL_WIDTH -
        Real.exp (readT o cx cy (boxChannel b + 2)) * CELL_WIDTH *
          anchors.getD (b * 2) 0 / 2 ∧
      box.y = ((cy : ℝ) + Sigmoid (readT o cx cy (boxChannel b + 1))) * CELL_HEIGHT -
        Real.exp (readT o cx cy (boxChannel b + 3)) * CELL_HEIGHT *
          anchors.getD (b * 2 + 1) 0 / 2 ∧
      box.width = Real.exp (readT o cx cy (boxChannel b + 2)) * CELL_WIDTH *
        anchors.getD (b * 2) 0 ∧
      box.height = Real.exp (readT o cx cy (boxChannel b + 3)) * CELL_HEIGHT *
        anchors.getD (b * 2 + 1) 0) ∧
    stepM zeroTensor (1 / 50) 0 0 0 =
      some (some { label := "aeroplane", x := -1.28, y := -3.04,
                   width := 34.56, height := 38.08, score := 1 / 40 }) := by
  refine ⟨?_, stepM_zeroEval⟩
  intro o t cy cx b box h
  obtain ⟨h1, h2, h3⟩ := stepM_emit_inv o t cy cx b box h
  subst h3
  refine ⟨?_, ?_, ?_, ?_⟩ <;>
    · unfold centerX centerY boxWidth boxHeight
      rfl

/-- Witness for C6: the geometry equations instantiated at the box
emitted for cell (0,0), anchor 0 of the all-zero tensor. -/
theorem C6_witness :
    stepM zeroTensor (1 / 50) 0 0 0 =
      some (some { label := "aeroplane", x := -1.28, y := -3.04,
                   width := 34.56, height := 38.08, score := 1 / 40 }) ∧
    (({ label := "aeroplane", x := -1.28, y := -3.04, width := 34.56,
        height := 38.08, score := 1 / 40 } : YoloBox).x =
      (((0 : ℕ) : ℝ) + Sigmoid (readT zeroTensor 0 0 (boxChannel 0))) * CELL_WIDTH -
        Real.exp (readT zeroTensor 0 0 (boxChannel 0 + 2)) * CELL_WIDTH *
          anchors.getD (0 * 2) 0 / 2) ∧
    (({ label := "aeroplane", x := -1.28, y := -3.04, width := 34.56,
        height := 38.08, score := 1 / 40 } : YoloBox).width =
      Real.exp (readT zeroTensor 0 0 (boxChannel 0 + 2)) * CELL_WIDTH *
        anchors.getD (0 * 2) 0) := by
  have h := C6_box_geometry.1 zeroTensor (1 / 50) 0 0 0 _ stepM_zeroEval
  exact ⟨stepM_zeroEval, h.1, h.2.2.1⟩

/-- Counterexample to C7: the grid dimensions are hardcoded to 13×13
(125 channels), so no configuration with rows = cols = 2 and channels
= 3 exists; on the actual code `GetOffset(1, 1, 2) = 2*169 + 13 + 1 =
352`, not 11. -/
theorem C7_counterexample : GetOffset 1 1 2 = 352 ∧ (352 : ℤ) ≠ 11 := by
  constructor <;> decide

/-- Claim C7 as amended: for all inputs `GetOffset` returns
`channel * (rows*cols) + cellY * cols + cellX` with the hardcoded grid
rows = cols = 13 (channel-major planar layout), so
`GetOffset(1, 1, 2) = 2*169 + 1*13 + 1 = 352`; the spec's 2×2×3
configuration is not expressible in the code. -/
theorem C7_offset_formula :
    (∀ x y channel : ℤ, GetOffset x y channel = channel * 169 + y * 13 + x) ∧
    GetOffset 1 1 2 = 352 := by
  constructor
  · intro x y c
    unfold GetOffset channelStride ROW_COUNT COL_COUNT
    push_cast
    ring
  · decide

/-- Claim C8: for every finite non-empty input, `Softmax` returns a list
of the same length whose entries sum to exactly 1 (hence within the
1e-5 tolerance); the max-subtraction step is value-preserving (the
result equals the unshifted softmax `exp xᵢ / Σ exp xⱼ`); and an
all-equal input yields the uniform distribution `1/length`. -/
theorem C8_softmax_normalization (v : List ℝ) (hv : v ≠ []) :
    (Softmax v).length = v.length ∧
    (Softmax v).sum = 1 ∧
    |(Softmax v).sum - 1| < 1e-5 ∧
    Softmax v = v.map (fun x => Real.exp x / (v.map Real.exp).sum) ∧
    (∀ c : ℝ, (∀ x ∈ v, x = c) →
      Softmax v = List.replicate v.length (1 / (v.length : ℝ))) := by
  refine ⟨Softmax_length v, Softmax_sum v hv, ?_, Softmax_eq_unshifted v hv,
    fun c hc => Softmax_const v c hv hc⟩
  rw [Softmax_sum v hv]
  norm_num

/-- Witness for C8: the softmax properties at the concrete two-element
all-zero input. -/
theorem C8_witness :
    ([(0 : ℝ), 0] ≠ []) ∧
    ((Softmax [(0 : ℝ), 0]).length = ([(0 : ℝ), 0] : List ℝ).length ∧
     (Softmax [(0 : ℝ), 0]).sum = 1 ∧
     |(Softmax [(0 : ℝ), 0]).sum - 1| < 1e-5 ∧
     Softmax [(0 : ℝ), 0] =
       ([(0 : ℝ), 0] : List ℝ).map
         (fun x => Real.exp x / (([(0 : ℝ), 0] : List ℝ).map Real.exp).sum) ∧
     (∀ c : ℝ, (∀ x ∈ ([(0 : ℝ), 0] : List ℝ), x = c) →
       Softmax [(0 : ℝ), 0] = List.replicate ([(0 : ℝ), 0] : List ℝ).length
         (1 / ((([(0 : ℝ), 0] : List ℝ).length : ℕ) : ℝ)))) := by
  have h : ([(0 : ℝ), 0] : List ℝ) ≠ [] := by simp
  exact ⟨h, C8_softmax_normalization [0, 0] h⟩

/-- Claim C9: every box the per-anchor step emits carries label
`labels[topClass]` and score `distribution[topClass] * objectness` where
`topClass = maxIdx` of the softmax class distribution, the anchor passed
the objectness filter, and `maxIdx` is the first maximum of a
left-to-right scan: every class strictly before it has strictly smaller
probability and no class beats it. -/
theorem C9_top_class_argmax (o : List ℝ) (t : ℝ) (cy cx b : ℕ)
    (box : YoloBox) (h : stepM o t cy cx b = some (some box)) :
    box.label = labels.getD (maxIdx (classDist o cy cx b)) "" ∧
    box.score = (classDist o cy cx b).getD (maxIdx (classDist o cy cx b)) 0 *
      objectness o cy cx b ∧
    ¬ objectness o cy cx b < t ∧
    (∀ j : ℕ, j < maxIdx (classDist o cy cx b) →
      (classDist o cy cx b).getD j 0 <
        (classDist o cy cx b).getD (maxIdx (classDist o cy cx b)) 0) ∧
    (∀ j : ℕ, j < (classDist o cy cx b).length →
      (classDist o cy cx b).getD j 0 ≤
        (classDist o cy cx b).getD (maxIdx (classDist o cy cx b)) 0) := by
  obtain ⟨h1, h2, h3⟩ := stepM_emit_inv o t cy cx b box h
  have h20 : (classDist o cy cx b).length = 20 := by
    unfold classDist
    rw [Softmax_length]
    simp [CLASS_COUNT]
  have hne : classDist o cy cx b ≠ [] := by
    intro hnil
    rw [hnil] at h20
    simp at h20
  subst h3
  exact ⟨rfl, rfl, h1,
    fun j hj => getD_lt_of_lt_maxIdx _ hne j hj,
    fun j hj => getD_le_getD_maxIdx _ j hj⟩

/-- Witness for C9: the argmax characterization at the box emitted for
cell (0,0), anchor 0 of the all-zero tensor at threshold 1/50. -/
theorem C9_witness :
    stepM zeroTensor (1 / 50) 0 0 0 =
      some (some { label := "aeroplane", x := -1.28, y := -3.04,
                   width := 34.56, height := 38.08, score := 1 / 40 }) ∧
    (({ label := "aeroplane", x := -1.28, y := -3.04, width := 34.56,
        height := 38.08, score := 1 / 40 } : YoloBox).label =
      labels.getD (maxIdx (classDist zeroTensor 0 0 0)) "" ∧
     ({ label := "aeroplane", x := -1.28, y := -3.04, width := 34.56,
        height := 38.08, score := 1 / 40 } : YoloBox).score =
      (classDist zeroTensor 0 0 0).getD (maxIdx (classDist zeroTensor 0 0 0)) 0 *
        objectness zeroTensor 0 0 0 ∧
     ¬ objectness zeroTensor 0 0 0 < 1 / 50 ∧
     (∀ j : ℕ, j < maxIdx (classDist zeroTensor 0 0 0) →
       (classDist zeroTensor 0 0 0).getD j 0 <
         (classDist zeroTensor 0 0 0).getD (maxIdx (classDist zeroTensor 0 0 0)) 0) ∧
     (∀ j : ℕ, j < (classDist zeroTensor 0 0 0).length →
       (classDist zeroTensor 0 0 0).getD j 0 ≤
         (classDist zeroTensor 0 0 0).getD (maxIdx (classDist zeroTensor 0 0 0)) 0)) :=
  ⟨stepM_zeroEval, C9_top_class_argmax zeroTensor (1 / 50) 0 0 0 _ stepM_zeroEval⟩

/-- Claim C10: decoding is monotone in the threshold — on a tensor of
(at least) the expected length, with thresholds t1 ≤ t2, the output at
t2 is a sublist (subsequence) of the output at t1: raising the threshold
only removes boxes, and never adds, reorders, or alters them, because
both filter stages compare with strict less-than against the same
threshold and the emitted box does not depend on it. -/
theorem C10_threshold_monotone (o : List ℝ) (t1 t2 : ℝ)
    (l1 l2 : List YoloBox)
    (hlen : ROW_COUNT * COL_COUNT * CHANNEL_COUNT ≤ o.length) (h12 : t1 ≤ t2)
    (hd1 : GetRecognizedObjects o t1 = some l1)
    (hd2 : GetRecognizedObjects o t2 = some l2) :
    l2.Sublist l1 := by
  have h21 : 21125 ≤ o.length := by
    calc (21125 : ℕ) = ROW_COUNT * COL_COUNT * CHANNEL_COUNT := by
          norm_num [ROW_COUNT, COL_COUNT, CHANNEL_COUNT]
      _ ≤ o.length := hlen
  rw [decode_eq_decodeT o t1 h21] at hd1
  rw [decode_eq_decodeT o t2 h21] at hd2
  have e1 := Option.some.inj hd1
  have e2 := Option.some.inj hd2
  rw [← e1, ← e2]
  unfold decodeT
  exact filterMap_sublist_mono _ _
    (fun p box hp => stepT_mono o t1 t2 h12 p.1 p.2.1 p.2.2 box hp) scanOrder

/-- Witness for C10: on the all-zero tensor, the (empty) output at
threshold 1 is a sublist of the output at threshold 0. -/
theorem C10_witness :
    ROW_COUNT * COL_COUNT * CHANNEL_COUNT ≤ zeroTensor.length ∧
    (0 : ℝ) ≤ 1 ∧
    GetRecognizedObjects zeroTensor 0 = some (decodeT zeroTensor 0) ∧
    GetRecognizedObjects zeroTensor 1 = some [] ∧
    List.Sublist ([] : List YoloBox) (decodeT zeroTensor 0) := by
  have hlen : ROW_COUNT * COL_COUNT * CHANNEL_COUNT ≤ zeroTensor.length := by
    rw [length_zeroTensor]
    norm_num [ROW_COUNT, COL_COUNT, CHANNEL_COUNT]
  have h21 : 21125 ≤ zeroTensor.length := by
    rw [length_zeroTensor]
  have hd1 := decode_eq_decodeT zeroTensor 0 h21
  have hd2 := decode_empty_of_one_le zeroTensor 1 h21 (le_refl 1)
  exact ⟨hlen, by norm_num, hd1, hd2,
    C10_threshold_monotone zeroTensor 0 1 (decodeT zeroTensor 0) []
      hlen (by norm_num) hd1 hd2⟩

end yolo
